import Mathlib

/- Verification of the point-stream generator in src/main.rs of generate_params.

   Modelling conventions, justified line by line against the source:

   * The BLS12-381 G1 group operations used by the program are restricted to the
     cyclic subgroup generated by the fixed base point, so a G1 point is
     represented by its discrete logarithm with respect to that base, an element
     of the scalar field `ZMod r` (`r` = the group order).  The source operation
     `g *= self.tau` (group scalar multiplication, main.rs:139) becomes field
     multiplication of the discrete logarithm by `tau`; the base generator
     `G1Projective::generator()` has discrete logarithm 1.  Byte serialization
     of points (H384 / bincode) is explicitly out of scope per the spec, so a
     chunk stores points directly.

   * The generator loop of `Generator::generate_g1` (main.rs:134-154) is a
     non-terminating-in-syntax `loop` that exits when the claimed index reaches
     `MAX_COUNT`; it is embedded with a fuel argument equal to
     `MAX_COUNT - counter`, which makes the exit test `index >= MAX_COUNT`
     equivalent to `fuel = 0`.  Note the source tests the claimed index against
     the constant `MAX_COUNT`, not against the `count` argument.

   * Each loop iteration is recorded as a list of atomic events in program
     order: `claim i` for the `fetch_add` that returns `i` (main.rs:135),
     `emit i p` for computing the element and storing it into the chunk buffer
     (main.rs:139-140), and `flush k path data` for `File::create` plus the
     bincode write of a completed chunk (main.rs:141-151).  Progress printing
     (`println`) is display-only and not recorded.

   * `getrandom::fill` failures make the source panic via `unwrap`; a panic is
     modelled as `none`.  The Pedersen stream's `get_random_point` calls are
     modelled by an oracle `rand : Nat -> ZMod r` giving the point returned by
     the n-th call of the run. -/

namespace GenerateParams

/-- Order of the BLS12-381 scalar field (= order of the G1/G2 subgroups), the
modulus of both `blstrs::Scalar` and `dusk_bls12_381::BlsScalar`. -/
def r : Nat := 52435875175126190479447740508185965837690552500527637822603658699938581184513

instance : NeZero r := ⟨by decide⟩

/-- main.rs:14, `const MAX_COUNT: usize = u32::MAX as usize + 1`. -/
def MAX_COUNT : Nat := 4294967296

/-- Discrete logarithm of `G1Projective::generator()` with respect to itself. -/
def g1_generator : ZMod r := 1

/-- The two distinct configuration errors of main.rs:119-128 (and 180-189). -/
inductive ConfigError where
  | countTooLarge : Nat → ConfigError
  | chunkTooShort : ConfigError

/-- Atomic events of one stream run, in program order. -/
inductive Event where
  | claim : Nat → Event
  | emit : Nat → ZMod r → Event
  | flush : Nat → String → List (ZMod r) → Event

/-- The character written `\x7b` is the opening curly brace. -/
def lbrace : Char := '\x7b'

/-- The character written `\x7d` is the closing curly brace. -/
def rbrace : Char := '\x7d'

/-- Rust `str::replace(needle, repl)` specialized to the two-character needle
"\x7b\x7d": scan left to right, replacing each non-overlapping occurrence. -/
def substPatternList (repl : List Char) : List Char → List Char
  | [] => []
  | [c] => [c]
  | a :: b :: rest =>
    if a = lbrace ∧ b = rbrace then repl ++ substPatternList repl rest
    else a :: substPatternList repl (b :: rest)

/-- main.rs:143, `pattern.replace("\x7b\x7d", chunk_index.to_string().as_str())`;
`Nat.repr` is the decimal rendering matching Rust's `usize::to_string`. -/
def substPattern (pat : String) (idx : Nat) : String :=
  String.mk (substPatternList (Nat.repr idx).toList pat.toList)

/-- Helper: prepend this iteration's events to the loop's remaining output. -/
def pushEvents (es : List Event) (p : Nat × List Event) : Nat × List Event :=
  (p.1, es ++ p.2)

/-- Body of the `loop` of `Generator::generate_g1` (main.rs:134-154).
Arguments after the three fixed ones: remaining fuel (`MAX_COUNT - counter`),
the counter value, the running point `g`, and the chunk buffer.  The result is
the final counter value and the event trace.  With fuel 0 the claimed index
equals `MAX_COUNT`, so the iteration only performs the `fetch_add` and returns. -/
def g1LoopAux (tau : ZMod r) (chunkLength : Nat) (pat : String) :
    Nat → Nat → ZMod r → List (ZMod r) → Nat × List Event
  | 0, cnt, _, _ => (cnt + 1, [Event.claim cnt])
  | fuel + 1, cnt, g, chunk =>
    if cnt % chunkLength = chunkLength - 1 then
      pushEvents
        [Event.claim cnt, Event.emit cnt (g * tau),
          Event.flush (cnt / chunkLength) (substPattern pat (cnt / chunkLength))
            (chunk.set (cnt % chunkLength) (g * tau))]
        (g1LoopAux tau chunkLength pat fuel (cnt + 1) (g * tau)
          (chunk.set (cnt % chunkLength) (g * tau)))
    else
      pushEvents [Event.claim cnt, Event.emit cnt (g * tau)]
        (g1LoopAux tau chunkLength pat fuel (cnt + 1) (g * tau)
          (chunk.set (cnt % chunkLength) (g * tau)))

/-- The whole loop of `generate_g1` as run by the source: counter starts at 0
(main.rs:97), `g` starts at the base generator (main.rs:133), the buffer is
`vec![H384::zero(); chunk_length]` (main.rs:132, the zero placeholder is never
flushed because slots are filled in order from index 0). -/
def g1Run (tau : ZMod r) (chunkLength : Nat) (pat : String) : Nat × List Event :=
  g1LoopAux tau chunkLength pat MAX_COUNT 0 g1_generator (List.replicate chunkLength 0)

/-- `Generator::generate_g1` (main.rs:113-155): the two validation checks, then
the loop.  The result records the function's return value together with the
stream counter's final value and the event trace (both 0 / empty when a check
fails, since the counter is only touched inside the loop). -/
def generate_g1 (tau : ZMod r) (count : Nat) (pat : String) (chunkLength : Nat) :
    Except ConfigError Unit × Nat × List Event :=
  if count > MAX_COUNT then (Except.error (ConfigError.countTooLarge count), 0, [])
  else if chunkLength < 2 then (Except.error ConfigError.chunkTooShort, 0, [])
  else
    let run := g1Run tau chunkLength pat
    (Except.ok (), run.1, run.2)

/-- Body of the `loop` of `Generator::generate_pedersen` (main.rs:194-214).
`rand n` is the point produced by the n-th `get_random_point()` call; the calls
happen once per body iteration in index order, so the call at index `cnt` is the
`cnt`-th. -/
def pedersenLoopAux (rand : Nat → ZMod r) (chunkLength : Nat) (pat : String) :
    Nat → Nat → List (ZMod r) → Nat × List Event
  | 0, cnt, _ => (cnt + 1, [Event.claim cnt])
  | fuel + 1, cnt, chunk =>
    if cnt % chunkLength = chunkLength - 1 then
      pushEvents
        [Event.claim cnt, Event.emit cnt (rand cnt),
          Event.flush (cnt / chunkLength) (substPattern pat (cnt / chunkLength))
            (chunk.set (cnt % chunkLength) (rand cnt))]
        (pedersenLoopAux rand chunkLength pat fuel (cnt + 1)
          (chunk.set (cnt % chunkLength) (rand cnt)))
    else
      pushEvents [Event.claim cnt, Event.emit cnt (rand cnt)]
        (pedersenLoopAux rand chunkLength pat fuel (cnt + 1)
          (chunk.set (cnt % chunkLength) (rand cnt)))

/-- The whole loop of `generate_pedersen` as run by the source (counter from 0,
zeroed buffer). -/
def pedersenRun (rand : Nat → ZMod r) (chunkLength : Nat) (pat : String) : Nat × List Event :=
  pedersenLoopAux rand chunkLength pat MAX_COUNT 0 (List.replicate chunkLength 0)

/-- `Generator::generate_pedersen` (main.rs:174-215): identical validation
checks, then the loop. -/
def generate_pedersen (rand : Nat → ZMod r) (count : Nat) (pat : String) (chunkLength : Nat) :
    Except ConfigError Unit × Nat × List Event :=
  if count > MAX_COUNT then (Except.error (ConfigError.countTooLarge count), 0, [])
  else if chunkLength < 2 then (Except.error ConfigError.chunkTooShort, 0, [])
  else
    let run := pedersenRun rand chunkLength pat
    (Except.ok (), run.1, run.2)

/-- Counter-increment events of a trace, in order, with the index each
`fetch_add` returned. -/
def claimsOf (tr : List Event) : List Nat :=
  tr.filterMap fun e => match e with
    | Event.claim i => some i
    | _ => none

/-- Emitted elements of a trace, in order, with their logical indices. -/
def emitsOf (tr : List Event) : List (Nat × ZMod r) :=
  tr.filterMap fun e => match e with
    | Event.emit i p => some (i, p)
    | _ => none

/-- Chunk-file writes of a trace, in order: chunk index, path, contents. -/
def flushesOf (tr : List Event) : List (Nat × String × List (ZMod r)) :=
  tr.filterMap fun e => match e with
    | Event.flush k p d => some (k, p, d)
    | _ => none

/-- Final file-system content at `path` after replaying a trace's writes in
order; `File::create` truncates, so a later write to the same path wins. -/
def fsAfter (tr : List Event) (path : String) : Option (List (ZMod r)) :=
  (flushesOf tr).foldl (fun acc w => if w.2.1 = path then some w.2.2 else acc) none

/-- Counter discipline of one stream, checked along the trace: `c` is the
counter value (number of increments so far), `e` the number of emitted
elements.  Each `claim` must return exactly the current counter value (so the
counter starts at 0, is incremented by exactly one per claim, is never
decremented, and never hands out the same index twice) and may only occur when
every previously claimed index has been emitted; each `emit` must carry the
next index in order and may only occur after its own index has been claimed,
with the counter exactly one ahead of the emitted count. -/
def counterDiscipline : List Event → Nat → Nat → Bool
  | [], _, _ => true
  | Event.claim i :: rest, c, e => i == c && e == c && counterDiscipline rest (c + 1) e
  | Event.emit i _ :: rest, c, e => i == e && c == e + 1 && counterDiscipline rest c (e + 1)
  | Event.flush _ _ _ :: rest, c, e => counterDiscipline rest c e

/-- Contents a complete chunk `k` of a powers-of-tau stream must have: slot `j`
holds the stream element of logical index `k * chunkLength + j`. -/
def specChunk (tau : ZMod r) (chunkLength k : Nat) : List (ZMod r) :=
  (List.range chunkLength).map fun j => tau ^ (k * chunkLength + j + 1)

/-- Number of entropy bytes drawn by `get_random_scalar` (main.rs:49, the
64-byte buffer passed to `getrandom::fill`). -/
def ENTROPY_BYTES : Nat := 64

/-- A filled 64-byte entropy buffer. -/
def Entropy64 : Type := { l : List (Fin 256) // l.length = ENTROPY_BYTES }

/-- Little-endian integer value of a byte string. -/
def natFromBytesLE : List (Fin 256) → Nat
  | [] => 0
  | b :: rest => b.val + 256 * natFromBytesLE rest

/-- `BlsScalar::from_bytes_wide` (main.rs:51): interpret 64 bytes as a 512-bit
little-endian integer and reduce it into the scalar field. -/
def from_bytes_wide (bytes : List (Fin 256)) : ZMod r :=
  (natFromBytesLE bytes : ZMod r)

/-- `Scalar::from_bytes_le` of blstrs on a 32-byte string of value `v`:
succeeds exactly when the value is canonical, i.e. below the field order. -/
def scalar_from_bytes_le (v : Nat) : Option (ZMod r) :=
  if v < r then some (v : ZMod r) else none

/-- `get_random_scalar` (main.rs:48-55).  The argument is the result of the
`getrandom::fill` call: `none` when the entropy source fails, in which case the
source's `unwrap` panics (modelled as `none`; no retry, no fallback value).
Otherwise the 64 bytes are reduced wide into the field by
`BlsScalar::from_bytes_wide`, serialized canonically by `to_bytes`, and parsed
back by `Scalar::from_bytes_le` whose `into_option` is `unwrap`ped. -/
def get_random_scalar (entropy : Option Entropy64) : Option (ZMod r) :=
  entropy.bind fun bytes => scalar_from_bytes_le (from_bytes_wide bytes.val).val

theorem claimsOf_nil : claimsOf [] = [] := rfl

theorem claimsOf_cons_claim (i : Nat) (tr : List Event) :
    claimsOf (Event.claim i :: tr) = i :: claimsOf tr := rfl

theorem claimsOf_cons_emit (i : Nat) (p : ZMod r) (tr : List Event) :
    claimsOf (Event.emit i p :: tr) = claimsOf tr := rfl

theorem claimsOf_cons_flush (k : Nat) (s : String) (d : List (ZMod r)) (tr : List Event) :
    claimsOf (Event.flush k s d :: tr) = claimsOf tr := rfl

theorem emitsOf_nil : emitsOf [] = [] := rfl

theorem emitsOf_cons_claim (i : Nat) (tr : List Event) :
    emitsOf (Event.claim i :: tr) = emitsOf tr := rfl

theorem emitsOf_cons_emit (i : Nat) (p : ZMod r) (tr : List Event) :
    emitsOf (Event.emit i p :: tr) = (i, p) :: emitsOf tr := rfl

theorem emitsOf_cons_flush (k : Nat) (s : String) (d : List (ZMod r)) (tr : List Event) :
    emitsOf (Event.flush k s d :: tr) = emitsOf tr := rfl

theorem flushesOf_nil : flushesOf [] = [] := rfl

theorem flushesOf_cons_claim (i : Nat) (tr : List Event) :
    flushesOf (Event.claim i :: tr) = flushesOf tr := rfl

theorem flushesOf_cons_emit (i : Nat) (p : ZMod r) (tr : List Event) :
    flushesOf (Event.emit i p :: tr) = flushesOf tr := rfl

theorem flushesOf_cons_flush (k : Nat) (s : String) (d : List (ZMod r)) (tr : List Event) :
    flushesOf (Event.flush k s d :: tr) = (k, s, d) :: flushesOf tr := rfl

theorem g1LoopAux_fst (tau : ZMod r) (cl : Nat) (pat : String) :
    ∀ fuel cnt (g : ZMod r) (chunk : List (ZMod r)),
      (g1LoopAux tau cl pat fuel cnt g chunk).1 = cnt + fuel + 1 := by
  intro fuel
  induction fuel with
  | zero => intro cnt g chunk; rfl
  | succ n ih =>
    intro cnt g chunk
    unfold g1LoopAux
    split <;> simp only [pushEvents, ih] <;> omega

theorem g1LoopAux_claims (tau : ZMod r) (cl : Nat) (pat : String) :
    ∀ fuel cnt (g : ZMod r) (chunk : List (ZMod r)),
      claimsOf (g1LoopAux tau cl pat fuel cnt g chunk).2 = List.range' cnt (fuel + 1) := by
  intro fuel
  induction fuel with
  | zero => intro cnt g chunk; rfl
  | succ n ih =>
    intro cnt g chunk
    unfold g1LoopAux
    split <;>
      simp only [pushEvents, List.cons_append, List.nil_append, claimsOf_cons_claim,
        claimsOf_cons_emit, claimsOf_cons_flush, ih, List.range']

theorem g1LoopAux_emits (tau : ZMod r) (cl : Nat) (pat : String) :
    ∀ fuel cnt (chunk : List (ZMod r)),
      emitsOf (g1LoopAux tau cl pat fuel cnt (tau ^ cnt) chunk).2 =
        (List.range' cnt fuel).map fun i => (i, tau ^ (i + 1)) := by
  intro fuel
  induction fuel with
  | zero => intro cnt chunk; rfl
  | succ n ih =>
    intro cnt chunk
    have hg : tau ^ cnt * tau = tau ^ (cnt + 1) := (pow_succ tau cnt).symm
    unfold g1LoopAux
    split <;>
      simp only [pushEvents, List.cons_append, List.nil_append, emitsOf_cons_claim,
        emitsOf_cons_emit, emitsOf_cons_flush, hg, ih, List.range', List.map_cons]

theorem specChunk_length (tau : ZMod r) (cl k : Nat) : (specChunk tau cl k).length = cl := by
  simp [specChunk]

theorem specChunk_getElem (tau : ZMod r) (cl k j : Nat) (h : j < cl) :
    (specChunk tau cl k)[j]? = some (tau ^ (k * cl + j + 1)) := by
  simp [specChunk, List.getElem?_map, List.getElem?_range h]

theorem g1LoopAux_flushes (tau : ZMod r) (cl : Nat) (pat : String) (h2 : 2 ≤ cl) :
    ∀ fuel cnt (chunk : List (ZMod r)), chunk.length = cl →
      (∀ j, j < cnt % cl → chunk[j]? = some (tau ^ (cnt - cnt % cl + j + 1))) →
      flushesOf (g1LoopAux tau cl pat fuel cnt (tau ^ cnt) chunk).2 =
        ((List.range fuel).filter fun t => decide ((cnt + t) % cl = cl - 1)).map
          fun t => ((cnt + t) / cl, substPattern pat ((cnt + t) / cl),
            specChunk tau cl ((cnt + t) / cl)) := by
  have hcl : 0 < cl := by omega
  intro fuel
  induction fuel with
  | zero => intro cnt chunk _ _; rfl
  | succ n ih =>
    intro cnt chunk hlen hinv
    have hmlt : cnt % cl < cl := Nat.mod_lt _ hcl
    have hmle : cnt % cl ≤ cnt := Nat.mod_le _ _
    have hg : tau ^ cnt * tau = tau ^ (cnt + 1) := (pow_succ tau cnt).symm
    have hlen1 : (chunk.set (cnt % cl) (tau ^ (cnt + 1))).length = cl := by
      simp [hlen]
    have hP : ((fun t => decide ((cnt + t) % cl = cl - 1)) ∘ Nat.succ) =
        fun t => decide ((cnt + 1 + t) % cl = cl - 1) := by
      funext t
      have ht : cnt + Nat.succ t = cnt + 1 + t := by omega
      simp only [Function.comp_apply, ht]
    have hF : ((fun t => ((cnt + t) / cl, substPattern pat ((cnt + t) / cl),
          specChunk tau cl ((cnt + t) / cl))) ∘ Nat.succ) =
        fun t => ((cnt + 1 + t) / cl, substPattern pat ((cnt + 1 + t) / cl),
          specChunk tau cl ((cnt + 1 + t) / cl)) := by
      funext t
      have ht : cnt + Nat.succ t = cnt + 1 + t := by omega
      simp only [Function.comp_apply, ht]
    unfold g1LoopAux
    split
    case isTrue h =>
      have hmod1 : (cnt + 1) % cl = 0 := by
        have h1 : (cnt + 1) % cl = (cnt % cl + 1 % cl) % cl := Nat.add_mod cnt 1 cl
        have h3 : cl - 1 + 1 = cl := by omega
        rw [h1, h, Nat.mod_eq_of_lt (by omega : 1 < cl), h3, Nat.mod_self]
      have hinv1 : ∀ j, j < (cnt + 1) % cl →
          (chunk.set (cnt % cl) (tau ^ (cnt + 1)))[j]? =
            some (tau ^ (cnt + 1 - (cnt + 1) % cl + j + 1)) := by
        intro j hj
        rw [hmod1] at hj
        omega
      have hrec := ih (cnt + 1) (chunk.set (cnt % cl) (tau ^ (cnt + 1))) hlen1 hinv1
      have hdm : cnt / cl * cl + cnt % cl = cnt := Nat.div_add_mod' cnt cl
      have hdata : chunk.set (cnt % cl) (tau ^ (cnt + 1)) = specChunk tau cl (cnt / cl) := by
        apply List.ext_getElem?
        intro i
        by_cases hi : i < cl
        · by_cases hieq : i = cnt % cl
          · subst hieq
            rw [List.getElem?_set_self (by rw [hlen]; exact hmlt),
              specChunk_getElem tau cl _ _ hi]
            have he : cnt + 1 = cnt / cl * cl + cnt % cl + 1 := by omega
            rw [← he]
          · rw [List.getElem?_set_ne (fun hc => hieq hc.symm),
              hinv i (by omega), specChunk_getElem tau cl _ _ hi]
            have he : cnt - cnt % cl + i + 1 = cnt / cl * cl + i + 1 := by
              generalize cnt / cl * cl = A at hdm ⊢
              omega
            rw [he]
        · rw [List.getElem?_eq_none (by rw [hlen1]; omega),
            List.getElem?_eq_none (by rw [specChunk_length]; omega)]
      rw [hdata] at hrec
      rw [List.range_succ_eq_map, List.filter_cons, if_pos (by simp [h]),
        List.filter_map, List.map_cons, List.map_map, hP, hF]
      simp only [pushEvents, List.cons_append, List.nil_append, flushesOf_cons_claim,
        flushesOf_cons_emit, flushesOf_cons_flush, hg, hdata, hrec, Nat.add_zero]
    case isFalse h =>
      have hm1lt : cnt % cl + 1 < cl := by omega
      have hmod1 : (cnt + 1) % cl = cnt % cl + 1 := by
        have h1 : (cnt + 1) % cl = (cnt % cl + 1 % cl) % cl := Nat.add_mod cnt 1 cl
        rw [h1, Nat.mod_eq_of_lt (by omega : 1 < cl), Nat.mod_eq_of_lt hm1lt]
      have hinv1 : ∀ j, j < (cnt + 1) % cl →
          (chunk.set (cnt % cl) (tau ^ (cnt + 1)))[j]? =
            some (tau ^ (cnt + 1 - (cnt + 1) % cl + j + 1)) := by
        intro j hj
        rw [hmod1] at hj
        rw [hmod1]
        by_cases hje : j = cnt % cl
        · subst hje
          rw [List.getElem?_set_self (by rw [hlen]; exact hmlt)]
          have he : cnt + 1 - (cnt % cl + 1) + cnt % cl + 1 = cnt + 1 := by omega
          rw [he]
        · rw [List.getElem?_set_ne (fun hc => hje hc.symm), hinv j (by omega)]
          have he : cnt - cnt % cl + j + 1 = cnt + 1 - (cnt % cl + 1) + j + 1 := by omega
          rw [he]
      have hrec := ih (cnt + 1) (chunk.set (cnt % cl) (tau ^ (cnt + 1))) hlen1 hinv1
      rw [List.range_succ_eq_map, List.filter_cons, if_neg (by simp [h]),
        List.filter_map, List.map_map, hP, hF]
      simp only [pushEvents, List.cons_append, List.nil_append, flushesOf_cons_claim,
        flushesOf_cons_emit, flushesOf_cons_flush, hg, hrec]

theorem filter_mod_map_div_range (cl : Nat) (h1 : 1 ≤ cl) :
    ∀ fuel, ((List.range fuel).filter fun t => decide (t % cl = cl - 1)).map (fun t => t / cl) =
      List.range (fuel / cl) := by
  intro fuel
  induction fuel with
  | zero => simp
  | succ n ih =>
    rw [List.range_succ, List.filter_append, List.map_append, ih]
    by_cases h : n % cl = cl - 1
    · have hdm : n / cl * cl + n % cl = n := Nat.div_add_mod' n cl
      have hdiv : (n + 1) / cl = n / cl + 1 := by
        have hn1 : n + 1 = (n / cl + 1) * cl := by
          rw [Nat.add_mul, Nat.one_mul]
          generalize n / cl * cl = A at hdm ⊢
          omega
        rw [hn1, Nat.mul_div_cancel _ (by omega : 0 < cl)]
      rw [hdiv, List.range_succ]
      congr 1
      simp [List.filter_cons, h]
    · have hdiv : (n + 1) / cl = n / cl := by
        have hdm : n / cl * cl + n % cl = n := Nat.div_add_mod' n cl
        have hmlt : n % cl < cl := Nat.mod_lt _ (by omega)
        have hn1 : n + 1 = n % cl + 1 + n / cl * cl := by omega
        rw [hn1, Nat.add_mul_div_right _ _ (by omega : 0 < cl),
          Nat.div_eq_of_lt (by omega : n % cl + 1 < cl), Nat.zero_add]
      rw [hdiv]
      simp [List.filter_cons, h]

theorem g1Run_fst (tau : ZMod r) (cl : Nat) (pat : String) :
    (g1Run tau cl pat).1 = MAX_COUNT + 1 := by
  unfold g1Run
  rw [g1LoopAux_fst]
  omega

theorem g1Run_claims (tau : ZMod r) (cl : Nat) (pat : String) :
    claimsOf (g1Run tau cl pat).2 = List.range (MAX_COUNT + 1) := by
  unfold g1Run
  rw [g1LoopAux_claims, List.range_eq_range']

theorem g1Run_emits (tau : ZMod r) (cl : Nat) (pat : String) :
    emitsOf (g1Run tau cl pat).2 =
      (List.range MAX_COUNT).map fun i => (i, tau ^ (i + 1)) := by
  unfold g1Run
  rw [show g1_generator = tau ^ (0 : Nat) from (pow_zero tau).symm, g1LoopAux_emits,
    List.range_eq_range']

theorem g1Run_flushes (tau : ZMod r) (cl : Nat) (pat : String) (h2 : 2 ≤ cl) :
    flushesOf (g1Run tau cl pat).2 =
      (List.range (MAX_COUNT / cl)).map fun k =>
        (k, substPattern pat k, specChunk tau cl k) := by
  unfold g1Run
  rw [show g1_generator = tau ^ (0 : Nat) from (pow_zero tau).symm,
    g1LoopAux_flushes tau cl pat h2 MAX_COUNT 0 (List.replicate cl 0)
      (by simp) (by simp)]
  have hmap := congrArg
    (List.map fun k => (k, substPattern pat k, specChunk tau cl k))
    (filter_mod_map_div_range cl (by omega) MAX_COUNT)
  rw [List.map_map] at hmap
  simp only [Nat.zero_add]
  rw [← hmap]
  rfl

theorem counterDiscipline_g1LoopAux (tau : ZMod r) (cl : Nat) (pat : String) :
    ∀ fuel cnt (g : ZMod r) (chunk : List (ZMod r)),
      counterDiscipline (g1LoopAux tau cl pat fuel cnt g chunk).2 cnt cnt = true := by
  intro fuel
  induction fuel with
  | zero => intro cnt g chunk; simp [g1LoopAux, counterDiscipline]
  | succ n ih =>
    intro cnt g chunk
    unfold g1LoopAux
    split <;>
      simp [pushEvents, counterDiscipline, ih]

theorem pedersenLoopAux_fst (rand : Nat → ZMod r) (cl : Nat) (pat : String) :
    ∀ fuel cnt (chunk : List (ZMod r)),
      (pedersenLoopAux rand cl pat fuel cnt chunk).1 = cnt + fuel + 1 := by
  intro fuel
  induction fuel with
  | zero => intro cnt chunk; rfl
  | succ n ih =>
    intro cnt chunk
    unfold pedersenLoopAux
    split <;> simp only [pushEvents, ih] <;> omega

theorem pedersenLoopAux_claims (rand : Nat → ZMod r) (cl : Nat) (pat : String) :
    ∀ fuel cnt (chunk : List (ZMod r)),
      claimsOf (pedersenLoopAux rand cl pat fuel cnt chunk).2 = List.range' cnt (fuel + 1) := by
  intro fuel
  induction fuel with
  | zero => intro cnt chunk; rfl
  | succ n ih =>
    intro cnt chunk
    unfold pedersenLoopAux
    split <;>
      simp only [pushEvents, List.cons_append, List.nil_append, claimsOf_cons_claim,
        claimsOf_cons_emit, claimsOf_cons_flush, ih, List.range']

theorem pedersenLoopAux_emits (rand : Nat → ZMod r) (cl : Nat) (pat : String) :
    ∀ fuel cnt (chunk : List (ZMod r)),
      emitsOf (pedersenLoopAux rand cl pat fuel cnt chunk).2 =
        (List.range' cnt fuel).map fun i => (i, rand i) := by
  intro fuel
  induction fuel with
  | zero => intro cnt chunk; rfl
  | succ n ih =>
    intro cnt chunk
    unfold pedersenLoopAux
    split <;>
      simp only [pushEvents, List.cons_append, List.nil_append, emitsOf_cons_claim,
        emitsOf_cons_emit, emitsOf_cons_flush, ih, List.range', List.map_cons]

theorem counterDiscipline_pedersenLoopAux (rand : Nat → ZMod r) (cl : Nat) (pat : String) :
    ∀ fuel cnt (chunk : List (ZMod r)),
      counterDiscipline (pedersenLoopAux rand cl pat fuel cnt chunk).2 cnt cnt = true := by
  intro fuel
  induction fuel with
  | zero => intro cnt chunk; simp [pedersenLoopAux, counterDiscipline]
  | succ n ih =>
    intro cnt chunk
    unfold pedersenLoopAux
    split <;>
      simp [pushEvents, counterDiscipline, ih]

theorem pedersenRun_fst (rand : Nat → ZMod r) (cl : Nat) (pat : String) :
    (pedersenRun rand cl pat).1 = MAX_COUNT + 1 := by
  unfold pedersenRun
  rw [pedersenLoopAux_fst]
  omega

theorem pedersenRun_claims (rand : Nat → ZMod r) (cl : Nat) (pat : String) :
    claimsOf (pedersenRun rand cl pat).2 = List.range (MAX_COUNT + 1) := by
  unfold pedersenRun
  rw [pedersenLoopAux_claims, List.range_eq_range']

theorem pedersenRun_emits (rand : Nat → ZMod r) (cl : Nat) (pat : String) :
    emitsOf (pedersenRun rand cl pat).2 = (List.range MAX_COUNT).map fun i => (i, rand i) := by
  unfold pedersenRun
  rw [pedersenLoopAux_emits, List.range_eq_range']

/-- The two-character placeholder that `str::replace` scans for. -/
def placeholder : List Char := [lbrace, rbrace]

/-- Check whether a character list contains the placeholder as a substring. -/
def hasPlaceholder : List Char → Bool
  | [] => false
  | [_] => false
  | a :: b :: rest => (a = lbrace && b = rbrace) || hasPlaceholder (b :: rest)

/-- The pieces of a character list delimited by the occurrences of the
placeholder that the left-to-right, non-overlapping scan of
`substPatternList` finds; `n + 1` pieces means `n` replaced occurrences. -/
def splitPlaceholder : List Char → List (List Char)
  | [] => [[]]
  | [c] => [[c]]
  | a :: b :: rest =>
    if a = lbrace ∧ b = rbrace then [] :: splitPlaceholder rest
    else
      match splitPlaceholder (b :: rest) with
      | [] => [[a]]
      | s :: ss => (a :: s) :: ss

/-- Concatenate pieces, putting one copy of `sep` between consecutive pieces. -/
def joinWith (sep : List Char) : List (List Char) → List Char
  | [] => []
  | [x] => x
  | x :: xs => x ++ sep ++ joinWith sep xs

theorem splitPlaceholder_ne_nil : ∀ l : List Char, splitPlaceholder l ≠ []
  | [] => by simp [splitPlaceholder]
  | [c] => by simp [splitPlaceholder]
  | a :: b :: rest => by
    unfold splitPlaceholder
    split
    · simp
    · split <;> simp

theorem substPatternList_eq_joinWith (repl : List Char) :
    ∀ l : List Char, substPatternList repl l = joinWith repl (splitPlaceholder l)
  | [] => by simp [substPatternList, splitPlaceholder, joinWith]
  | [c] => by simp [substPatternList, splitPlaceholder, joinWith]
  | a :: b :: rest => by
    unfold substPatternList splitPlaceholder
    split
    · rw [substPatternList_eq_joinWith repl rest]
      obtain ⟨s, ss, hss⟩ : ∃ s ss, splitPlaceholder rest = s :: ss := by
        cases hsp : splitPlaceholder rest with
        | nil => exact absurd hsp (splitPlaceholder_ne_nil rest)
        | cons s ss => exact ⟨s, ss, rfl⟩
      rw [hss]
      rfl
    · rw [substPatternList_eq_joinWith repl (b :: rest)]
      cases hsp : splitPlaceholder (b :: rest) with
      | nil => exact absurd hsp (splitPlaceholder_ne_nil _)
      | cons s ss =>
        cases ss with
        | nil => rfl
        | cons s2 ss2 => simp [joinWith]

theorem joinWith_placeholder_splitPlaceholder :
    ∀ l : List Char, joinWith placeholder (splitPlaceholder l) = l
  | [] => rfl
  | [c] => rfl
  | a :: b :: rest => by
    unfold splitPlaceholder
    split
    case isTrue h =>
      obtain ⟨ha, hb⟩ := h
      subst ha
      subst hb
      have hih := joinWith_placeholder_splitPlaceholder rest
      cases hsp : splitPlaceholder rest with
      | nil => exact absurd hsp (splitPlaceholder_ne_nil rest)
      | cons s ss =>
        rw [hsp] at hih
        show [] ++ placeholder ++ joinWith placeholder (s :: ss) = _
        rw [hih]
        rfl
    case isFalse h =>
      have hih := joinWith_placeholder_splitPlaceholder (b :: rest)
      cases hsp : splitPlaceholder (b :: rest) with
      | nil => exact absurd hsp (splitPlaceholder_ne_nil _)
      | cons s ss =>
        rw [hsp] at hih
        cases ss with
        | nil =>
          show a :: s = _
          rw [show (s : List Char) = b :: rest from hih]
        | cons s2 ss2 =>
          show (a :: s) ++ placeholder ++ joinWith placeholder (s2 :: ss2) = _
          rw [← hih]
          simp [joinWith, List.append_assoc]

theorem substPatternList_of_no_placeholder (repl : List Char) :
    ∀ l : List Char, hasPlaceholder l = false → substPatternList repl l = l
  | [] => fun _ => rfl
  | [c] => fun _ => rfl
  | a :: b :: rest => fun h => by
    unfold hasPlaceholder at h
    rw [Bool.or_eq_false_iff] at h
    obtain ⟨h1, h2⟩ := h
    unfold substPatternList
    rw [if_neg]
    · rw [substPatternList_of_no_placeholder repl (b :: rest) h2]
    · intro hc
      obtain ⟨ha, hb⟩ := hc
      simp [ha, hb] at h1

theorem substPattern_of_no_placeholder (pat : String) (idx : Nat)
    (h : hasPlaceholder pat.toList = false) : substPattern pat idx = pat := by
  unfold substPattern
  rw [substPatternList_of_no_placeholder _ _ h]
  cases pat
  rfl

theorem foldl_last_write (path : String) (M : Nat) (f : Nat → List (ZMod r)) (hM : 1 ≤ M) :
    (((List.range M).map fun k => ((k, path, f k) : Nat × String × List (ZMod r))).foldl
      (fun acc w => if w.2.1 = path then some w.2.2 else acc) none) = some (f (M - 1)) := by
  obtain ⟨m, rfl⟩ : ∃ m, M = m + 1 := ⟨M - 1, by omega⟩
  rw [List.range_succ, List.map_append, List.foldl_append]
  simp

/-- Concrete scalar used by the closed evaluation and counterexample theorems. -/
def tau0 : ZMod r := 5

/-- Concrete file pattern "g1_\x7b\x7d.bin" (braces written as escapes). -/
def pat0 : String := "g1_\x7b\x7d.bin"

/-- Concrete point oracle for the Pedersen stream in closed theorems. -/
def rand0 : Nat → ZMod r := fun _ => 0

/-- Claim C2: in the G1 power-of-tau stream, the element emitted at 0-based
index i equals base * tau^(i+1), and the element at index i+1 equals the
element at index i multiplied by tau. -/
theorem g1_sequence_law (tau : ZMod r) (cl : Nat) (pat : String) (i : Nat)
    (h : i + 1 < MAX_COUNT) :
    (emitsOf (g1Run tau cl pat).2)[i]? = some (i, g1_generator * tau ^ (i + 1)) ∧
    (emitsOf (g1Run tau cl pat).2)[i + 1]? =
      some (i + 1, g1_generator * tau ^ (i + 1) * tau) := by
  rw [g1Run_emits]
  constructor
  · rw [List.getElem?_map, List.getElem?_range (by omega : i < MAX_COUNT)]
    simp [g1_generator]
  · rw [List.getElem?_map, List.getElem?_range h]
    simp [g1_generator, pow_succ]

/-- Witness for C2 at the concrete input i = 2. -/
theorem g1_sequence_law_witness :
    (2 : Nat) + 1 < MAX_COUNT ∧
    ((emitsOf (g1Run tau0 2 pat0).2)[2]? = some (2, g1_generator * tau0 ^ (2 + 1)) ∧
      (emitsOf (g1Run tau0 2 pat0).2)[2 + 1]? =
        some (2 + 1, g1_generator * tau0 ^ (2 + 1) * tau0)) :=
  ⟨by decide, g1_sequence_law tau0 2 pat0 2 (by decide)⟩

/-- Claim C3: for a run with chunk length at least 2, the sequence of chunk
writes is exactly one write per chunk index 0, 1, 2, ... (no gaps, duplicates
or reordering); a write for chunk index k happens iff the stream emitted at
least (k+1)*chunk_length elements; and slot j of a chunk-k write holds the
stream element of logical index k*chunk_length + j. -/
theorem g1_chunk_completeness (tau : ZMod r) (cl : Nat) (pat : String) (k : Nat)
    (h2 : 2 ≤ cl) :
    flushesOf (g1Run tau cl pat).2 =
      (List.range ((emitsOf (g1Run tau cl pat).2).length / cl)).map
        (fun j => (j, substPattern pat j, specChunk tau cl j)) ∧
    ((∃ p d, (k, p, d) ∈ flushesOf (g1Run tau cl pat).2) ↔
      (k + 1) * cl ≤ (emitsOf (g1Run tau cl pat).2).length) ∧
    (∀ p d, (k, p, d) ∈ flushesOf (g1Run tau cl pat).2 → ∀ j, j < cl →
      d[j]? = ((emitsOf (g1Run tau cl pat).2)[k * cl + j]?).map Prod.snd) := by
  have hcl : 0 < cl := by omega
  have hlen : (emitsOf (g1Run tau cl pat).2).length = MAX_COUNT := by
    rw [g1Run_emits]
    simp
  have hflush := g1Run_flushes tau cl pat h2
  have hmul : ∀ k' : Nat, k' + 1 ≤ MAX_COUNT / cl ↔ (k' + 1) * cl ≤ MAX_COUNT :=
    fun k' => Nat.le_div_iff_mul_le hcl
  refine ⟨by rw [hflush, hlen], ?_, ?_⟩
  · rw [hflush, hlen]
    constructor
    · rintro ⟨p, d, hmem⟩
      rw [List.mem_map] at hmem
      obtain ⟨k', hk', heq⟩ := hmem
      rw [List.mem_range] at hk'
      rw [Prod.mk.injEq, Prod.mk.injEq] at heq
      obtain ⟨hkk, -, -⟩ := heq
      subst hkk
      exact (hmul k').mp (by omega)
    · intro hle
      refine ⟨substPattern pat k, specChunk tau cl k, ?_⟩
      rw [List.mem_map]
      exact ⟨k, List.mem_range.mpr (by have := (hmul k).mpr hle; omega), rfl⟩
  · intro p d hmem j hj
    rw [hflush, List.mem_map] at hmem
    obtain ⟨k', hk', heq⟩ := hmem
    rw [List.mem_range] at hk'
    rw [Prod.mk.injEq, Prod.mk.injEq] at heq
    obtain ⟨hkk, -, hd⟩ := heq
    subst hkk
    subst hd
    have hlt : k' * cl + j < MAX_COUNT := by
      have h1 : (k' + 1) * cl ≤ MAX_COUNT := (hmul k').mp (by omega)
      have h2 : (k' + 1) * cl = k' * cl + cl := by rw [Nat.add_mul, Nat.one_mul]
      generalize k' * cl = A at h1 h2 ⊢
      omega
    rw [specChunk_getElem tau cl _ _ hj, g1Run_emits, List.getElem?_map,
      List.getElem?_range hlt]
    rfl

/-- Witness for C3 at the concrete input chunk_length = 2, k = 0. -/
theorem g1_chunk_completeness_witness :
    (2 : Nat) ≤ 2 ∧
    (flushesOf (g1Run tau0 2 pat0).2 =
      (List.range ((emitsOf (g1Run tau0 2 pat0).2).length / 2)).map
        (fun j => (j, substPattern pat0 j, specChunk tau0 2 j)) ∧
    ((∃ p d, (0, p, d) ∈ flushesOf (g1Run tau0 2 pat0).2) ↔
      (0 + 1) * 2 ≤ (emitsOf (g1Run tau0 2 pat0).2).length) ∧
    (∀ p d, (0, p, d) ∈ flushesOf (g1Run tau0 2 pat0).2 → ∀ j, j < 2 →
      d[j]? = ((emitsOf (g1Run tau0 2 pat0).2)[0 * 2 + j]?).map Prod.snd)) :=
  ⟨by decide, g1_chunk_completeness tau0 2 pat0 0 (by decide)⟩

/-- Claim C8: the emitted point sequence of a G1 run is a function of tau
alone — two runs with the same tau and chunk length produce identical
sequences, whatever the file patterns, and the sequence equals
i maps to base * tau^(i+1). -/
theorem g1_determinism (tau : ZMod r) (cl : Nat) (pat1 pat2 : String) :
    emitsOf (g1Run tau cl pat1).2 = emitsOf (g1Run tau cl pat2).2 ∧
    emitsOf (g1Run tau cl pat1).2 =
      (List.range MAX_COUNT).map fun i => (i, g1_generator * tau ^ (i + 1)) := by
  constructor
  · rw [g1Run_emits, g1Run_emits]
  · rw [g1Run_emits]
    simp [g1_generator]

/-- Claim C7 (amended): counter discipline of both streams — the counter
starts at 0, each fetch_add returns consecutive indices (never decremented,
never reused), each element is emitted only after its own index was claimed
with the counter exactly one ahead of the emitted count (claim-then-produce),
and the counter is incremented exactly once per emitted element plus one final
increment by the terminating loop iteration, so it ends one above the number
of emitted elements. -/
theorem stream_counter_discipline (tau : ZMod r) (rand : Nat → ZMod r) (cl : Nat)
    (pat : String) :
    counterDiscipline (g1Run tau cl pat).2 0 0 = true ∧
    (claimsOf (g1Run tau cl pat).2).length = (emitsOf (g1Run tau cl pat).2).length + 1 ∧
    (g1Run tau cl pat).1 = (emitsOf (g1Run tau cl pat).2).length + 1 ∧
    counterDiscipline (pedersenRun rand cl pat).2 0 0 = true ∧
    (claimsOf (pedersenRun rand cl pat).2).length =
      (emitsOf (pedersenRun rand cl pat).2).length + 1 ∧
    (pedersenRun rand cl pat).1 = (emitsOf (pedersenRun rand cl pat).2).length + 1 := by
  have hgl : (emitsOf (g1Run tau cl pat).2).length = MAX_COUNT := by
    rw [g1Run_emits]
    simp
  have hpl : (emitsOf (pedersenRun rand cl pat).2).length = MAX_COUNT := by
    rw [pedersenRun_emits]
    simp
  refine ⟨?_, ?_, ?_, ?_, ?_, ?_⟩
  · exact counterDiscipline_g1LoopAux tau cl pat MAX_COUNT 0 g1_generator (List.replicate cl 0)
  · rw [g1Run_claims, hgl]
    simp
  · rw [g1Run_fst, hgl]
  · exact counterDiscipline_pedersenLoopAux rand cl pat MAX_COUNT 0 (List.replicate cl 0)
  · rw [pedersenRun_claims, hpl]
    simp
  · rw [pedersenRun_fst, hpl]

/-- Claim C7, counterexample to "incremented exactly once per emitted
element": in the G1 run the counter is incremented one more time than the
number of emitted elements (the final loop iteration increments it and then
detects termination without emitting). -/
theorem counter_extra_increment :
    (claimsOf (g1Run tau0 2 pat0).2).length ≠ (emitsOf (g1Run tau0 2 pat0).2).length := by
  rw [g1Run_claims, g1Run_emits]
  simp

/-- Claim C1, failing-input evaluation: with count = 4 and chunk length 2 the
validation passes, but the loop's exit test compares the claimed index with
MAX_COUNT — not with count — so the run emits MAX_COUNT = 2^32 elements
instead of 4. -/
theorem generate_g1_count_ignored :
    (generate_g1 tau0 4 pat0 2).1 = Except.ok () ∧
    (generate_g1 tau0 4 pat0 2).2.2 = (g1Run tau0 2 pat0).2 ∧
    (emitsOf (g1Run tau0 2 pat0).2).length = MAX_COUNT ∧ (4 : Nat) ≠ MAX_COUNT := by
  refine ⟨?_, ?_, ?_, by decide⟩
  · unfold generate_g1
    rw [if_neg (by decide), if_neg (by decide)]
  · unfold generate_g1
    rw [if_neg (by decide), if_neg (by decide)]
  · rw [g1Run_emits]
    simp

/-- Claim C5, failing-input evaluation: with count = 3 and chunk length 2 the
code does not stop after three elements; it keeps generating, and the third
element (logical index 2) is written to disk as slot 0 of the chunk-1 file,
contradicting "computed but never written to any file". -/
theorem generate_g1_third_element_written :
    (generate_g1 tau0 3 pat0 2).1 = Except.ok () ∧
    (generate_g1 tau0 3 pat0 2).2.2 = (g1Run tau0 2 pat0).2 ∧
    (∃ d, (1, substPattern pat0 1, d) ∈ flushesOf (g1Run tau0 2 pat0).2 ∧
      d[0]? = ((emitsOf (g1Run tau0 2 pat0).2)[2]?).map Prod.snd) := by
  refine ⟨?_, ?_, ?_⟩
  · unfold generate_g1
    rw [if_neg (by decide), if_neg (by decide)]
  · unfold generate_g1
    rw [if_neg (by decide), if_neg (by decide)]
  · refine ⟨specChunk tau0 2 1, ?_, ?_⟩
    · rw [g1Run_flushes tau0 2 pat0 (by decide), List.mem_map]
      exact ⟨1, List.mem_range.mpr (by decide), rfl⟩
    · rw [specChunk_getElem tau0 2 1 0 (by decide), g1Run_emits, List.getElem?_map,
        List.getElem?_range (by decide : 2 < MAX_COUNT)]
      rfl

/-- Claim C4: chunk lengths 0 and 1 are rejected with the chunk-length error,
2 is accepted; a count of 2^32 + 1 is rejected with the count error, exactly
2^32 is accepted; the two errors are distinct values and a rejection returns
with the counter still 0 and an empty trace, for both stream generators. -/
theorem boundary_rejection (tau : ZMod r) (rand : Nat → ZMod r) (pat : String) :
    generate_g1 tau MAX_COUNT pat 0 = (Except.error ConfigError.chunkTooShort, 0, []) ∧
    generate_g1 tau MAX_COUNT pat 1 = (Except.error ConfigError.chunkTooShort, 0, []) ∧
    (generate_g1 tau MAX_COUNT pat 2).1 = Except.ok () ∧
    generate_g1 tau (MAX_COUNT + 1) pat 2 =
      (Except.error (ConfigError.countTooLarge (MAX_COUNT + 1)), 0, []) ∧
    generate_pedersen rand MAX_COUNT pat 0 =
      (Except.error ConfigError.chunkTooShort, 0, []) ∧
    generate_pedersen rand MAX_COUNT pat 1 =
      (Except.error ConfigError.chunkTooShort, 0, []) ∧
    (generate_pedersen rand MAX_COUNT pat 2).1 = Except.ok () ∧
    generate_pedersen rand (MAX_COUNT + 1) pat 2 =
      (Except.error (ConfigError.countTooLarge (MAX_COUNT + 1)), 0, []) ∧
    ConfigError.chunkTooShort ≠ ConfigError.countTooLarge (MAX_COUNT + 1) := by
  refine ⟨?_, ?_, ?_, ?_, ?_, ?_, ?_, ?_, fun hc => ConfigError.noConfusion hc⟩
  · unfold generate_g1
    rw [if_neg (by decide), if_pos (by decide)]
  · unfold generate_g1
    rw [if_neg (by decide), if_pos (by decide)]
  · unfold generate_g1
    rw [if_neg (by decide), if_neg (by decide)]
  · unfold generate_g1
    rw [if_pos (by decide)]
  · unfold generate_pedersen
    rw [if_neg (by decide), if_pos (by decide)]
  · unfold generate_pedersen
    rw [if_neg (by decide), if_pos (by decide)]
  · unfold generate_pedersen
    rw [if_neg (by decide), if_neg (by decide)]
  · unfold generate_pedersen
    rw [if_pos (by decide)]

/-- Claim C9: when a configuration check fails (count above MAX_COUNT or chunk
length below 2), both generators return the error with the stream counter
still 0 and an empty event trace — no element computed, no file touched. -/
theorem config_error_no_work (tau : ZMod r) (rand : Nat → ZMod r) (count cl : Nat)
    (pat : String) (h : MAX_COUNT < count ∨ cl < 2) :
    (∃ e, generate_g1 tau count pat cl = (Except.error e, 0, [])) ∧
    (∃ e, generate_pedersen rand count pat cl = (Except.error e, 0, [])) := by
  unfold generate_g1 generate_pedersen
  by_cases hc : count > MAX_COUNT
  · rw [if_pos hc, if_pos hc]
    exact ⟨⟨_, rfl⟩, ⟨_, rfl⟩⟩
  · have hcl : cl < 2 := by omega
    rw [if_neg hc, if_neg hc, if_pos hcl, if_pos hcl]
    exact ⟨⟨_, rfl⟩, ⟨_, rfl⟩⟩

/-- Witness for C9 at the concrete input count = 5, chunk length = 1. -/
theorem config_error_no_work_witness :
    (MAX_COUNT < 5 ∨ (1 : Nat) < 2) ∧
    ((∃ e, generate_g1 tau0 5 pat0 1 = (Except.error e, 0, [])) ∧
      (∃ e, generate_pedersen rand0 5 pat0 1 = (Except.error e, 0, []))) :=
  ⟨Or.inr (by decide), config_error_no_work tau0 rand0 5 1 pat0 (Or.inr (by decide))⟩

/-- Claim C6: the scalar sampler draws exactly 64 bytes (so at least 64); on
entropy failure it returns no scalar at all (the source panics — no retry, no
weaker fallback); on success the result is the full 512-bit little-endian
value of the buffer reduced into the scalar field (a wide reduction using
every byte, not a truncating modulo). -/
theorem sampler_entropy_contract (e : Entropy64) :
    64 ≤ ENTROPY_BYTES ∧
    e.val.length = 64 ∧
    get_random_scalar none = none ∧
    get_random_scalar (some e) = some ((natFromBytesLE e.val : ZMod r)) := by
  refine ⟨by decide, e.property, rfl, ?_⟩
  unfold get_random_scalar
  show scalar_from_bytes_le (from_bytes_wide e.val).val =
    some ((natFromBytesLE e.val : ZMod r))
  unfold scalar_from_bytes_le from_bytes_wide
  rw [if_pos (ZMod.val_lt _), ZMod.natCast_zmod_val]

/-- Claim C10: every chunk write of a run uses the path obtained by
substituting the decimal chunk index for the placeholder; the pattern is its
placeholder-separated pieces joined by the placeholder, and the substituted
path is the same pieces joined by the same decimal index (every occurrence
replaced, all with the same index); a placeholder-free pattern is left
unchanged, so all chunks of such a run target one single path and the final
file content there is the last chunk written (each write overwrote the
previous one). -/
theorem chunk_path_substitution (tau : ZMod r) (cl : Nat) (pat : String) (k : Nat)
    (h2 : 2 ≤ cl) :
    (∀ k' p d, (k', p, d) ∈ flushesOf (g1Run tau cl pat).2 → p = substPattern pat k') ∧
    pat.toList = joinWith placeholder (splitPlaceholder pat.toList) ∧
    substPattern pat k =
      String.mk (joinWith (Nat.repr k).toList (splitPlaceholder pat.toList)) ∧
    (hasPlaceholder pat.toList = false → substPattern pat k = pat) ∧
    (hasPlaceholder pat.toList = false → cl ≤ MAX_COUNT →
      fsAfter (g1Run tau cl pat).2 pat = some (specChunk tau cl (MAX_COUNT / cl - 1))) := by
  refine ⟨?_, (joinWith_placeholder_splitPlaceholder pat.toList).symm, ?_,
    substPattern_of_no_placeholder pat k, ?_⟩
  · intro k' p d hmem
    rw [g1Run_flushes tau cl pat h2, List.mem_map] at hmem
    obtain ⟨k2, _, heq⟩ := hmem
    rw [Prod.mk.injEq, Prod.mk.injEq] at heq
    obtain ⟨hkk, hp, -⟩ := heq
    subst hkk
    exact hp.symm
  · unfold substPattern
    rw [substPatternList_eq_joinWith]
  · intro hnp hclM
    unfold fsAfter
    rw [g1Run_flushes tau cl pat h2]
    have hfun : (fun k' => ((k', substPattern pat k', specChunk tau cl k') :
        Nat × String × List (ZMod r))) = fun k' => (k', pat, specChunk tau cl k') := by
      funext k'
      rw [substPattern_of_no_placeholder pat k' hnp]
    rw [hfun]
    exact foldl_last_write pat (MAX_COUNT / cl) _ ((Nat.one_le_div_iff (by omega)).mpr hclM)

/-- Witness for C10 at the concrete input chunk_length = 2, k = 7. -/
theorem chunk_path_substitution_witness :
    (2 : Nat) ≤ 2 ∧
    ((∀ k' p d, (k', p, d) ∈ flushesOf (g1Run tau0 2 pat0).2 → p = substPattern pat0 k') ∧
    pat0.toList = joinWith placeholder (splitPlaceholder pat0.toList) ∧
    substPattern pat0 7 =
      String.mk (joinWith (Nat.repr 7).toList (splitPlaceholder pat0.toList)) ∧
    (hasPlaceholder pat0.toList = false → substPattern pat0 7 = pat0) ∧
    (hasPlaceholder pat0.toList = false → 2 ≤ MAX_COUNT →
      fsAfter (g1Run tau0 2 pat0).2 pat0 = some (specChunk tau0 2 (MAX_COUNT / 2 - 1)))) :=
  ⟨by decide, chunk_path_substitution tau0 2 pat0 7 (by decide)⟩

end GenerateParams
